import Mathlib

/-!
Verification development for the basefs package: a path-confinement adapter
that re-roots an abstract filesystem at a base directory.

The Go source is shallowly embedded over character lists (`Str`).  Paths are
Unix-style virtual paths, so the Go standard-library helpers used by the
package (path.Clean, path.Join, path.IsAbs, path.Base, strings.HasPrefix,
strings.TrimPrefix, strings.Replace) are modelled on `List Char` with their
documented Unix semantics; filepath.IsAbs and filepath.Join coincide with the
path versions on Unix and filepath.ToSlash is the identity.  The wrapped
filesystem is an oracle of response functions, and every facade operation
additionally returns the list of calls it made to the wrapped filesystem, so
"the wrapped filesystem was never invoked" is expressible as an empty list.
-/

/-- Go strings, modelled as character lists. -/
abbrev Str := List Char

/-- The ".." path segment. -/
def dotdot : Str := ['.', '.']

/-- Split a character list at every '/' (the segment decomposition
underlying the Go path functions).  Like strings.Split, the result is
never empty and keeps empty fields. -/
def splitSlash : Str → List Str
  | [] => [[]]
  | c :: cs =>
    if c = '/' then [] :: splitSlash cs
    else
      match splitSlash cs with
      | [] => [[c]]
      | s :: ss => (c :: s) :: ss

/-- The meaningful path segments of a character list: split on '/' and drop
empty and "." segments, as Go path.Clean does. -/
def segs (l : Str) : List Str :=
  (splitSlash l).filter (fun s => decide (s ≠ [] ∧ s ≠ ['.']))

/-- One step of Go path.Clean's segment processing.  The accumulator holds the
kept segments in reverse order.  A ".." segment pops the innermost kept
segment unless the kept segments are empty or already end in ".."; with no
kept segment, ".." is dropped on a rooted path and kept on an unrooted one. -/
def stepSeg (isRooted : Bool) (acc : List Str) (s : Str) : List Str :=
  if s = dotdot then
    match acc with
    | [] => if isRooted then [] else [s]
    | a :: rest => if a = dotdot then s :: acc else rest
  else s :: acc

/-- Fold `stepSeg` over a segment list. -/
def runSegs (isRooted : Bool) (acc : List Str) (l : List Str) : List Str :=
  l.foldl (stepSeg isRooted) acc

/-- The normalised segment list computed by Go path.Clean. -/
def normSegs (isRooted : Bool) (l : List Str) : List Str :=
  (runSegs isRooted [] l).reverse

/-- Join segments with '/' separators. -/
def joinSegs : List Str → Str
  | [] => []
  | s :: rest =>
    match rest with
    | [] => s
    | _ :: _ => s ++ '/' :: joinSegs (rest)

/-- Whether a path is rooted: nonempty and starting with '/'. -/
def rooted : Str → Bool
  | [] => false
  | c :: _ => c = '/'

/-- Model of Go path.IsAbs (and of filepath.IsAbs on Unix). -/
def isAbs (l : Str) : Bool := rooted l

/-- Model of Go path.Clean: lexically collapse ".", ".." and repeated
slashes; the empty path cleans to ".". -/
def cleanL (l : Str) : Str :=
  if l = [] then ['.']
  else if normSegs (rooted l) (segs l) = [] then (if rooted l then ['/'] else ['.'])
  else if rooted l then '/' :: joinSegs (normSegs (rooted l) (segs l))
  else joinSegs (normSegs (rooted l) (segs l))

/-- Model of Go path.Join on two elements (filepath.Join coincides on Unix):
empty elements are dropped, the rest joined with '/' and cleaned; if both
elements are empty the result is empty. -/
def join2 (a b : Str) : Str :=
  if a = [] then (if b = [] then [] else cleanL b)
  else if b = [] then cleanL a
  else cleanL (a ++ '/' :: b)

/-- Model of Go path.Base: strip trailing slashes and return everything after
the last remaining slash; "" gives ".", all-slashes gives "/". -/
def pathBase (p : Str) : Str :=
  if p = [] then ['.']
  else
    let q := (p.reverse.dropWhile (fun c => c = '/')).reverse
    if q = [] then ['/']
    else q.foldl (fun acc c => if c = '/' then [] else acc ++ [c]) []

/-- Model of Go strings.HasPrefix(s, pre). -/
def hasPrefix (s pre : Str) : Bool := pre.isPrefixOf s

/-- Model of Go strings.TrimPrefix(s, pre): drop pre if it is a prefix of s,
otherwise return s unchanged. -/
def trimPrefix (s pre : Str) : Str :=
  if hasPrefix s pre then s.drop pre.length else s


/-- Helper for the empty-pattern case of Go strings.Replace: the empty old
string matches at every character boundary, so new is inserted before each
character (and after the last one), up to the replacement budget. -/
def replaceEmptyPat (new : Str) : Nat → Str → Str
  | 0, s => s
  | _ + 1, [] => new
  | n + 1, c :: cs => new ++ c :: replaceEmptyPat new n cs

/-- Helper for Go strings.Replace with a nonempty pattern: scan left to
right, replacing up to `n` (the second Nat) non-overlapping occurrences of
old by new.  The first Nat is structural-recursion fuel; the caller passes
more fuel than a scan with nonempty old can consume, so it never changes the
result. -/
def replaceScan (old new : Str) : Nat → Nat → Str → Str
  | 0, _, s => s
  | _ + 1, 0, s => s
  | fuel + 1, n + 1, s =>
    if old.isPrefixOf s then new ++ replaceScan old new fuel n (s.drop old.length)
    else
      match s with
      | [] => []
      | c :: cs => c :: replaceScan old new fuel (n + 1) cs

/-- Model of Go strings.Replace(s, old, new, n): if old equals new or n is 0
the input is returned unchanged; if n is negative every occurrence is
replaced; otherwise the first n non-overlapping occurrences are replaced,
scanning left to right. -/
def stringsReplace (s old new : Str) (n : Int) : Str :=
  if old = new ∨ n = 0 then s
  else
    let budget : Nat := if n < 0 then s.length + 1 else n.toNat
    if old = [] then replaceEmptyPat new budget s
    else replaceScan old new (s.length + 1) budget s


/-- Go error values as they cross the basefs boundary: io.EOF, *os.PathError,
*os.LinkError and plain errors.New values.  A *os.PathError carries the
message of its wrapped Err; other error details are not observed by basefs. -/
inductive GoErr where
  | eof : GoErr
  | pathErr (op : Str) (path : Str) (msg : Str) : GoErr
  | linkErr (op : Str) (old : Str) (new : Str) (err : GoErr) : GoErr
  | simple (msg : Str) : GoErr
deriving DecidableEq, Repr

/-- Go's err.Error() for the modelled error values, following the formats of
os.PathError.Error, os.LinkError.Error and errors.New. -/
def GoErr.errString : GoErr → Str
  | .eof => ("EOF").data
  | .pathErr op p m => op ++ ' ' :: p ++ ':' :: ' ' :: m
  | .linkErr op o n e => op ++ ' ' :: o ++ ' ' :: n ++ ':' :: ' ' :: e.errString
  | .simple m => m

/-- Model of fixerr (file.go) on a non-nil error: io.EOF is passed through,
a *os.PathError is rebuilt with strings.Replace(Path, prefixStr, "", 0)
applied to its Path, and any other error becomes errors.New of its message
with the same Replace applied.  Note the Replace count argument is 0, exactly
as in the source. -/
def fixerr1 (pfx : Str) : GoErr → GoErr
  | .eof => .eof
  | .pathErr op p m => .pathErr op (stringsReplace p pfx [] 0) m
  | e => .simple (stringsReplace e.errString pfx [] 0)

/-- Model of fixerr (file.go): a nil error is returned as nil, otherwise
`fixerr1` applies. -/
def fixerr (pfx : Str) : Option GoErr → Option GoErr
  | none => none
  | some e => some (fixerr1 pfx e)

/-- The os.FileInfo values exchanged with the wrapped filesystem; only the
fields basefs observes are modelled. -/
structure FileInfo where
  name : Str
  isDir : Bool
  size : Int
deriving DecidableEq, Repr

/-- The File wrapper returned by the facades (file.go): a real open-file
handle (abstracted to an identifier), the base-directory prefix and the
virtual name used at open time. -/
structure FileHandle where
  f : Nat
  pfx : Str
  name : Str
deriving DecidableEq, Repr

/-- The file value of an open-style facade operation: Go returns nil, a
*absfs.InvalidFile, or a *File. -/
inductive FileRes where
  | nilFile : FileRes
  | invalidFile : FileRes
  | file (h : FileHandle) : FileRes
deriving DecidableEq, Repr

/-- A call made to the wrapped filesystem, recording the operation and the
(real) arguments passed to it. -/
inductive Call where
  | Stat (p : Str)
  | Open (p : Str)
  | Create (p : Str)
  | OpenFile (p : Str) (flags : Int) (perm : Nat)
  | Mkdir (p : Str) (perm : Nat)
  | MkdirAll (p : Str) (perm : Nat)
  | Remove (p : Str)
  | RemoveAll (p : Str)
  | Rename (o : Str) (n : Str)
  | Chmod (p : Str) (mode : Nat)
  | Chtimes (p : Str) (atime : Int) (mtime : Int)
  | Chown (p : Str) (uid : Int) (gid : Int)
  | Lchown (p : Str) (uid : Int) (gid : Int)
  | Truncate (p : Str) (size : Int)
  | Lstat (p : Str)
  | Readlink (p : Str)
  | Symlink (o : Str) (n : Str)
  | ReadDir (p : Str)
  | ReadFile (p : Str)
deriving DecidableEq, Repr

/-- The wrapped absfs filesystem, modelled as an oracle of response
functions: basefs only observes the return values of these methods.  Each
method returns its Go results, with errors as `Option GoErr` (none = nil)
and file handles abstracted to identifiers. -/
structure WrappedFS where
  Stat : Str → FileInfo × Option GoErr
  Open : Str → Nat × Option GoErr
  Create : Str → Nat × Option GoErr
  OpenFile : Str → Int → Nat → Nat × Option GoErr
  Mkdir : Str → Nat → Option GoErr
  MkdirAll : Str → Nat → Option GoErr
  Remove : Str → Option GoErr
  RemoveAll : Str → Option GoErr
  Rename : Str → Str → Option GoErr
  Chmod : Str → Nat → Option GoErr
  Chtimes : Str → Int → Int → Option GoErr
  Chown : Str → Int → Int → Option GoErr
  Lchown : Str → Int → Int → Option GoErr
  Truncate : Str → Int → Option GoErr
  Lstat : Str → FileInfo × Option GoErr
  Readlink : Str → Str × Option GoErr
  Symlink : Str → Str → Option GoErr
  ReadDir : Str → List FileInfo × Option GoErr
  ReadFile : Str → List Nat × Option GoErr
  TempDir : Str

/-- The state shared by the two facades (Go struct baseFS): the virtual
working directory and the base-directory prefix (Go field name: prefix). -/
structure BaseFS where
  cwd : Str
  pfx : Str
deriving DecidableEq, Repr

/-- Model of baseFS.Chdir: clean the argument; an absolute result replaces
the working directory, a relative one is joined onto it.  Always returns a
nil error and never consults the wrapped filesystem or the prefix. -/
def BaseFS.Chdir (b : BaseFS) (dir : Str) : BaseFS × Option GoErr :=
  if isAbs (cleanL dir) then ({ b with cwd := cleanL dir }, none)
  else ({ b with cwd := join2 b.cwd (cleanL dir) }, none)

/-- Model of baseFS.Getwd: return the stored working directory, nil error. -/
def BaseFS.Getwd (b : BaseFS) : Str × Option GoErr := (b.cwd, none)

/-- Model of baseFS.path, the virtual-to-real path translation: the empty
name means the working directory; "/" maps to the prefix directly; otherwise
a non-absolute name is cleaned, the name is joined onto the prefix, and the
result is rejected with a not-found-style *os.PathError (carrying the
computed path) unless it has the prefix as a string prefix. -/
def BaseFS.path (b : BaseFS) (name : Str) : Str × Option GoErr :=
  let n1 := if name = [] then b.cwd else name
  if n1 = ['/'] then (b.pfx, none)
  else
    let n2 := if isAbs n1 then n1 else cleanL n1
    let n3 := join2 b.pfx n2
    if hasPrefix n3 b.pfx then (n3, none)
    else ([], some (.pathErr ("open").data n3 ("no such file or directory").data))



/-- The symlink-capable confined facade (Go struct SymlinkFileSystem):
shared baseFS state plus the wrapped filesystem. -/
structure SymlinkFileSystem where
  base : BaseFS
  fs : WrappedFS

/-- The basic confined facade (Go struct FileSystem): shared baseFS state
plus the wrapped filesystem. -/
structure FileSystem where
  base : BaseFS
  fs : WrappedFS

/-- Model of NewFS: reject an empty base directory (os.ErrInvalid), a
non-absolute one, one the wrapped filesystem cannot stat (the Stat error is
returned as-is) and one that is not a directory; otherwise build the facade
with working directory "/" and the base directory as prefix. -/
def NewFS (fs : WrappedFS) (dir : Str) : Option SymlinkFileSystem × Option GoErr :=
  if dir = [] then (none, some (.simple ("invalid argument").data))
  else if isAbs dir = false then (none, some (.simple ("not an absolute path").data))
  else
    match fs.Stat dir with
    | (_, some e) => (none, some e)
    | (info, none) =>
      if info.isDir = false then (none, some (.simple ("not a directory").data))
      else (some { base := { cwd := ['/'], pfx := dir }, fs := fs }, none)

/-- Model of NewFileSystem: same checks as NewFS, building the basic
facade. -/
def NewFileSystem (fs : WrappedFS) (dir : Str) : Option FileSystem × Option GoErr :=
  if dir = [] then (none, some (.simple ("invalid argument").data))
  else if isAbs dir = false then (none, some (.simple ("not an absolute path").data))
  else
    match fs.Stat dir with
    | (_, some e) => (none, some e)
    | (info, none) =>
      if info.isDir = false then (none, some (.simple ("not a directory").data))
      else (some { base := { cwd := ['/'], pfx := dir }, fs := fs }, none)

/-- Model of SymlinkFileSystem.OpenFile.  On translation failure Go returns a
fresh *absfs.InvalidFile together with the rejection error; on a wrapped
error the invalid file and the raw error; on success a *File wrapper (the
trailing fixerr in the source is applied to a nil error). -/
def SymlinkFileSystem.OpenFile (f : SymlinkFileSystem) (name : Str) (flags : Int)
    (perm : Nat) : FileRes × Option GoErr × List Call :=
  match f.base.path name with
  | (_, some err) => (.invalidFile, some err, [])
  | (ppath, none) =>
    match f.fs.OpenFile ppath flags perm with
    | (_, some err) => (.invalidFile, some err, [Call.OpenFile ppath flags perm])
    | (file, none) =>
      (.file { f := file, pfx := f.base.pfx, name := name }, fixerr f.base.pfx none,
        [Call.OpenFile ppath flags perm])

/-- Model of SymlinkFileSystem.Mkdir. -/
def SymlinkFileSystem.Mkdir (f : SymlinkFileSystem) (name : Str) (perm : Nat) :
    Option GoErr × List Call :=
  match f.base.path name with
  | (_, some err) => (some err, [])
  | (ppath, none) => (fixerr f.base.pfx (f.fs.Mkdir ppath perm), [Call.Mkdir ppath perm])

/-- Model of SymlinkFileSystem.Remove. -/
def SymlinkFileSystem.Remove (f : SymlinkFileSystem) (name : Str) :
    Option GoErr × List Call :=
  match f.base.path name with
  | (_, some err) => (some err, [])
  | (ppath, none) => (fixerr f.base.pfx (f.fs.Remove ppath), [Call.Remove ppath])

/-- Model of SymlinkFileSystem.Rename: both names are translated; a failed
translation is reported as a *os.LinkError naming the original virtual
oldname and newname. -/
def SymlinkFileSystem.Rename (f : SymlinkFileSystem) (oldname newname : Str) :
    Option GoErr × List Call :=
  match f.base.path oldname with
  | (_, some err) => (some (.linkErr ("rename").data oldname newname err), [])
  | (oldpath, none) =>
    match f.base.path newname with
    | (_, some err) => (some (.linkErr ("rename").data oldname newname err), [])
    | (newpath, none) =>
      (fixerr f.base.pfx (f.fs.Rename oldpath newpath), [Call.Rename oldpath newpath])

/-- Model of SymlinkFileSystem.Stat: on success the wrapped FileInfo is
re-wrapped so Name() reports path.Base of the virtual name. -/
def SymlinkFileSystem.Stat (f : SymlinkFileSystem) (name : Str) :
    Option FileInfo × Option GoErr × List Call :=
  match f.base.path name with
  | (_, some err) => (none, some err, [])
  | (ppath, none) =>
    match f.fs.Stat ppath with
    | (_, some err) => (none, some (fixerr1 f.base.pfx err), [Call.Stat ppath])
    | (info, none) =>
      (some { name := pathBase name, isDir := info.isDir, size := info.size }, none,
        [Call.Stat ppath])

/-- Model of SymlinkFileSystem.Chmod. -/
def SymlinkFileSystem.Chmod (f : SymlinkFileSystem) (name : Str) (mode : Nat) :
    Option GoErr × List Call :=
  match f.base.path name with
  | (_, some err) => (some err, [])
  | (ppath, none) => (fixerr f.base.pfx (f.fs.Chmod ppath mode), [Call.Chmod ppath mode])

/-- Model of SymlinkFileSystem.Chtimes. -/
def SymlinkFileSystem.Chtimes (f : SymlinkFileSystem) (name : Str) (atime mtime : Int) :
    Option GoErr × List Call :=
  match f.base.path name with
  | (_, some err) => (some err, [])
  | (ppath, none) =>
    (fixerr f.base.pfx (f.fs.Chtimes ppath atime mtime), [Call.Chtimes ppath atime mtime])

/-- Model of SymlinkFileSystem.Chown. -/
def SymlinkFileSystem.Chown (f : SymlinkFileSystem) (name : Str) (uid gid : Int) :
    Option GoErr × List Call :=
  match f.base.path name with
  | (_, some err) => (some err, [])
  | (ppath, none) => (fixerr f.base.pfx (f.fs.Chown ppath uid gid), [Call.Chown ppath uid gid])

/-- Model of SymlinkFileSystem.TempDir: the wrapped temp directory is
converted to virtual form when it extends the prefix past a separator,
otherwise the fixed default "/tmp" is returned. -/
def SymlinkFileSystem.TempDir (f : SymlinkFileSystem) : Str :=
  let tmpdir := f.fs.TempDir
  if hasPrefix tmpdir (f.base.pfx ++ ['/']) then trimPrefix tmpdir f.base.pfx
  else ("/tmp").data

/-- Model of SymlinkFileSystem.Open. -/
def SymlinkFileSystem.Open (f : SymlinkFileSystem) (name : Str) :
    FileRes × Option GoErr × List Call :=
  match f.base.path name with
  | (_, some err) => (.nilFile, some err, [])
  | (ppath, none) =>
    match f.fs.Open ppath with
    | (_, some err) => (.nilFile, some (fixerr1 f.base.pfx err), [Call.Open ppath])
    | (file, none) =>
      (.file { f := file, pfx := f.base.pfx, name := name }, none, [Call.Open ppath])

/-- Model of SymlinkFileSystem.Create: a wrapped error is returned raw. -/
def SymlinkFileSystem.Create (f : SymlinkFileSystem) (name : Str) :
    FileRes × Option GoErr × List Call :=
  match f.base.path name with
  | (_, some err) => (.nilFile, some err, [])
  | (ppath, none) =>
    match f.fs.Create ppath with
    | (_, some err) => (.nilFile, some err, [Call.Create ppath])
    | (file, none) =>
      (.file { f := file, pfx := f.base.pfx, name := name }, none, [Call.Create ppath])

/-- Model of SymlinkFileSystem.MkdirAll: the wrapped result is returned
without fixerr. -/
def SymlinkFileSystem.MkdirAll (f : SymlinkFileSystem) (name : Str) (perm : Nat) :
    Option GoErr × List Call :=
  match f.base.path name with
  | (_, some err) => (some err, [])
  | (ppath, none) => (f.fs.MkdirAll ppath perm, [Call.MkdirAll ppath perm])

/-- Model of SymlinkFileSystem.RemoveAll: the wrapped result is returned
without fixerr. -/
def SymlinkFileSystem.RemoveAll (f : SymlinkFileSystem) (name : Str) :
    Option GoErr × List Call :=
  match f.base.path name with
  | (_, some err) => (some err, [])
  | (ppath, none) => (f.fs.RemoveAll ppath, [Call.RemoveAll ppath])

/-- Model of SymlinkFileSystem.Truncate: the wrapped result is returned
without fixerr. -/
def SymlinkFileSystem.Truncate (f : SymlinkFileSystem) (name : Str) (size : Int) :
    Option GoErr × List Call :=
  match f.base.path name with
  | (_, some err) => (some err, [])
  | (ppath, none) => (f.fs.Truncate ppath size, [Call.Truncate ppath size])

/-- Model of SymlinkFileSystem.Lstat: the wrapped FileInfo is returned as-is
(no name re-wrapping), the error through fixerr. -/
def SymlinkFileSystem.Lstat (f : SymlinkFileSystem) (name : Str) :
    Option FileInfo × Option GoErr × List Call :=
  match f.base.path name with
  | (_, some err) => (none, some err, [])
  | (ppath, none) =>
    match f.fs.Lstat ppath with
    | (_, some err) => (none, some (fixerr1 f.base.pfx err), [Call.Lstat ppath])
    | (info, none) => (some info, none, [Call.Lstat ppath])

/-- Model of SymlinkFileSystem.Lchown. -/
def SymlinkFileSystem.Lchown (f : SymlinkFileSystem) (name : Str) (uid gid : Int) :
    Option GoErr × List Call :=
  match f.base.path name with
  | (_, some err) => (some err, [])
  | (ppath, none) =>
    (fixerr f.base.pfx (f.fs.Lchown ppath uid gid), [Call.Lchown ppath uid gid])

/-- Model of SymlinkFileSystem.Readlink: a relative target is returned
as-is (path.IsAbs and filepath.IsAbs coincide in the Unix model); an
absolute target with the prefix as a string prefix is trimmed (filepath.
ToSlash is the identity on Unix), rooted with '/' if needed, and cleaned;
any other absolute target is returned unchanged. -/
def SymlinkFileSystem.Readlink (f : SymlinkFileSystem) (name : Str) :
    Str × Option GoErr × List Call :=
  match f.base.path name with
  | (_, some err) => ([], some err, [])
  | (ppath, none) =>
    match f.fs.Readlink ppath with
    | (_, some err) => ([], some (fixerr1 f.base.pfx err), [Call.Readlink ppath])
    | (target, none) =>
      if isAbs target = false then (target, none, [Call.Readlink ppath])
      else if hasPrefix target f.base.pfx then
        let t1 := trimPrefix target f.base.pfx
        let t2 := if t1 = [] ∨ hasPrefix t1 ['/'] = false then '/' :: t1 else t1
        (cleanL t2, none, [Call.Readlink ppath])
      else (target, none, [Call.Readlink ppath])

/-- Model of SymlinkFileSystem.Symlink: the link path newname is always
translated; the target oldname is translated only when absolute, a relative
target being passed through unchanged. -/
def SymlinkFileSystem.Symlink (f : SymlinkFileSystem) (oldname newname : Str) :
    Option GoErr × List Call :=
  match f.base.path newname with
  | (_, some err) => (some err, [])
  | (pnewname, none) =>
    if isAbs oldname then
      match f.base.path oldname with
      | (_, some err) => (some err, [])
      | (target, none) =>
        (fixerr f.base.pfx (f.fs.Symlink target pnewname), [Call.Symlink target pnewname])
    else
      (fixerr f.base.pfx (f.fs.Symlink oldname pnewname), [Call.Symlink oldname pnewname])

/-- Model of SymlinkFileSystem.ReadDir. -/
def SymlinkFileSystem.ReadDir (f : SymlinkFileSystem) (name : Str) :
    List FileInfo × Option GoErr × List Call :=
  match f.base.path name with
  | (_, some err) => ([], some err, [])
  | (ppath, none) =>
    match f.fs.ReadDir ppath with
    | (entries, err) => (entries, fixerr f.base.pfx err, [Call.ReadDir ppath])

/-- Model of SymlinkFileSystem.ReadFile. -/
def SymlinkFileSystem.ReadFile (f : SymlinkFileSystem) (name : Str) :
    List Nat × Option GoErr × List Call :=
  match f.base.path name with
  | (_, some err) => ([], some err, [])
  | (ppath, none) =>
    match f.fs.ReadFile ppath with
    | (data, err) => (data, fixerr f.base.pfx err, [Call.ReadFile ppath])

/-- Model of FileSystem.TempDir (textually identical to the symlink-capable
variant). -/
def FileSystem.TempDir (f : FileSystem) : Str :=
  let tmpdir := f.fs.TempDir
  if hasPrefix tmpdir (f.base.pfx ++ ['/']) then trimPrefix tmpdir f.base.pfx
  else ("/tmp").data

/-- A value of the interface type absfs.FileSystem as seen by the helpers in
utils.go: one of the two wrapper types of this package, or some other
implementation (a plain wrapped filesystem). -/
inductive AbsFS where
  | basic (f : FileSystem)
  | symlink (f : SymlinkFileSystem)
  | plain (w : WrappedFS)

/-- Model of Unwrap (utils.go): a *basefs.FileSystem yields its wrapped
filesystem; any other value, including a *basefs.SymlinkFileSystem, is
returned unchanged. -/
def Unwrap : AbsFS → AbsFS
  | .basic f => .plain f.fs
  | fs => fs

/-- Model of Prefix (utils.go): a *basefs.FileSystem yields its prefix; any
other value, including a *basefs.SymlinkFileSystem, yields "". -/
def Prefix : AbsFS → Str
  | .basic f => f.base.pfx
  | _ => []

/-- The spec's notion of a path lying within the base directory: a strict,
segment-aligned descendant, i.e. the base directory followed by a separator
and a remainder. -/
def withinBase (p base : Str) : Prop := ∃ rest, p = base ++ '/' :: rest

/-- A well-formed path segment: nonempty, not ".", and slash-free. -/
def GoodSeg (s : Str) : Prop := s ≠ [] ∧ s ≠ ['.'] ∧ '/' ∉ s

/-- A concrete wrapped filesystem, used to instantiate the theorems below on
specific inputs: every operation succeeds, directories stat as directories,
the temp directory is /base/tmp, and /base/l is a symlink to /basefoo. -/
def wfs0 : WrappedFS where
  Stat := fun p => ({ name := pathBase p, isDir := true, size := 0 }, none)
  Open := fun _ => (1, none)
  Create := fun _ => (2, none)
  OpenFile := fun _ _ _ => (3, none)
  Mkdir := fun _ _ => none
  MkdirAll := fun _ _ => none
  Remove := fun _ => none
  RemoveAll := fun _ => none
  Rename := fun _ _ => none
  Chmod := fun _ _ => none
  Chtimes := fun _ _ _ => none
  Chown := fun _ _ _ => none
  Lchown := fun _ _ _ => none
  Truncate := fun _ _ => none
  Lstat := fun p => ({ name := pathBase p, isDir := false, size := 0 }, none)
  Readlink := fun p => (if p = ("/base/l").data then ("/basefoo").data else ("t").data, none)
  Symlink := fun _ _ => none
  ReadDir := fun _ => ([], none)
  ReadFile := fun _ => ([], none)
  TempDir := ("/base/tmp").data

/-- A symlink-capable facade over `wfs0` confined to /base, as NewFS builds
it. -/
def f0 : SymlinkFileSystem := { base := { cwd := ['/'], pfx := ("/base").data }, fs := wfs0 }

/-- A basic facade over `wfs0` confined to /base, as NewFileSystem builds
it. -/
def fb0 : FileSystem := { base := { cwd := ['/'], pfx := ("/base").data }, fs := wfs0 }

/-- A baseFS state confined to /base with working directory /. -/
def b0 : BaseFS := { cwd := ['/'], pfx := ("/base").data }


-- Sanity checks for the embedding, mirroring documented Go behaviour and
-- the basefs unit tests.
example : cleanL "/base/../basefoo".data = "/basefoo".data := by decide
example : cleanL "a/c/..".data = "a".data := by decide
example : cleanL "".data = ".".data := by decide
example : cleanL "/..".data = "/".data := by decide
example : cleanL "..//x/.".data = "../x".data := by decide
example : join2 "/base".data "../basefoo".data = "/basefoo".data := by decide
example : join2 "/base".data "/etc/passwd".data = "/base/etc/passwd".data := by decide
example : pathBase "/a/b.txt".data = "b.txt".data := by decide
example : pathBase "/a/b/".data = "b".data := by decide
example : pathBase "///".data = "/".data := by decide
example : trimPrefix "/base/tmp".data "/base".data = "/tmp".data := by decide
example : stringsReplace "/base/f".data "/base".data [] 0 = "/base/f".data := by decide
example : stringsReplace "/base/f".data "/base".data [] (-1) = "/f".data := by decide
example : BaseFS.path { cwd := "/".data, pfx := "/base".data } "foo/bar".data =
    ("/base/foo/bar".data, none) := by decide
example : (BaseFS.path { cwd := "/".data, pfx := "/base".data } "/../etc/passwd".data).2.isSome
    = true := by decide

/-! Lemmas about the segment decomposition and Go path.Clean. -/

theorem splitSlash_ne_nil (l : Str) : splitSlash l ≠ [] := by
  cases l with
  | nil => simp [splitSlash]
  | cons c cs =>
    simp only [splitSlash]
    by_cases hc : c = '/'
    · simp [hc]
    · rw [if_neg hc]
      cases h : splitSlash cs <;> simp

theorem splitSlash_append (a b : Str) :
    splitSlash (a ++ '/' :: b) = splitSlash a ++ splitSlash b := by
  induction a with
  | nil => simp [splitSlash]
  | cons c cs ih =>
    by_cases hc : c = '/'
    · simp [splitSlash, hc, ih]
    · simp only [List.cons_append, splitSlash, if_neg hc]
      rw [List.append_eq, ih]
      cases h : splitSlash cs with
      | nil => exact absurd h (splitSlash_ne_nil cs)
      | cons s ss => simp

theorem splitSlash_no_slash {s : Str} (h : '/' ∉ s) : splitSlash s = [s] := by
  induction s with
  | nil => rfl
  | cons c cs ih =>
    have hc : ¬ c = '/' := fun hh => h (hh ▸ List.mem_cons_self c cs)
    have hcs : '/' ∉ cs := fun hh => h (List.mem_cons_of_mem c hh)
    simp only [splitSlash, if_neg hc, ih hcs]

theorem no_slash_of_mem_splitSlash {l s : Str} (hs : s ∈ splitSlash l) : '/' ∉ s := by
  induction l generalizing s with
  | nil =>
    simp only [splitSlash, List.mem_singleton] at hs
    simp [hs]
  | cons c cs ih =>
    simp only [splitSlash] at hs
    by_cases hc : c = '/'
    · rw [if_pos hc] at hs
      rcases List.mem_cons.mp hs with h1 | h2
      · simp [h1]
      · exact ih h2
    · rw [if_neg hc] at hs
      cases h : splitSlash cs with
      | nil => exact absurd h (splitSlash_ne_nil cs)
      | cons t ts =>
        rw [h] at hs
        rcases List.mem_cons.mp hs with h1 | h2
        · subst h1
          intro hm
          rcases List.mem_cons.mp hm with h3 | h4
          · exact hc h3.symm
          · exact ih (h ▸ List.mem_cons_self t ts) h4
        · exact ih (h ▸ List.mem_cons_of_mem t h2)


theorem segs_append (a b : Str) : segs (a ++ '/' :: b) = segs a ++ segs b := by
  simp [segs, splitSlash_append, List.filter_append]

theorem goodSeg_of_mem_segs {l s : Str} (hs : s ∈ segs l) : GoodSeg s := by
  simp only [segs, List.mem_filter, decide_eq_true_eq] at hs
  exact ⟨hs.2.1, hs.2.2, no_slash_of_mem_splitSlash hs.1⟩

theorem segs_single {s : Str} (h : GoodSeg s) : segs s = [s] := by
  simp [segs, splitSlash_no_slash h.2.2, h.1, h.2.1]

theorem segs_nil : segs [] = [] := by decide

theorem goodSeg_dotdot : GoodSeg dotdot := by
  refine ⟨by decide, by decide, by decide⟩

theorem runSegs_nil (r : Bool) (acc : List Str) : runSegs r acc [] = acc := rfl

theorem runSegs_cons (r : Bool) (acc : List Str) (s : Str) (l : List Str) :
    runSegs r acc (s :: l) = runSegs r (stepSeg r acc s) l := rfl

theorem runSegs_append (r : Bool) (acc : List Str) (a b : List Str) :
    runSegs r acc (a ++ b) = runSegs r (runSegs r acc a) b := by
  simp [runSegs, List.foldl_append]

theorem goodSeg_stepSeg {r : Bool} {acc : List Str} {s : Str}
    (hacc : ∀ t ∈ acc, GoodSeg t) (hs : GoodSeg s) :
    ∀ t ∈ stepSeg r acc s, GoodSeg t := by
  intro t ht
  by_cases hdd : s = dotdot
  · cases acc with
    | nil =>
      cases r with
      | true => simp [stepSeg, hdd] at ht
      | false =>
        simp [stepSeg, hdd] at ht
        subst ht; exact hdd ▸ hs
    | cons a rest =>
      by_cases ha : a = dotdot
      · rw [show stepSeg r (a :: rest) s = s :: a :: rest from by simp [stepSeg, hdd, ha]] at ht
        rcases List.mem_cons.mp ht with h1 | h2
        · subst h1; exact hs
        · exact hacc t h2
      · rw [show stepSeg r (a :: rest) s = rest from by simp [stepSeg, hdd, ha]] at ht
        exact hacc t (List.mem_cons_of_mem a ht)
  · rw [show stepSeg r acc s = s :: acc from by simp [stepSeg, hdd]] at ht
    rcases List.mem_cons.mp ht with h1 | h2
    · subst h1; exact hs
    · exact hacc t h2

theorem goodSeg_runSegs {r : Bool} {l : List Str} :
    ∀ {acc : List Str}, (∀ t ∈ acc, GoodSeg t) → (∀ s ∈ l, GoodSeg s) →
      ∀ t ∈ runSegs r acc l, GoodSeg t := by
  induction l with
  | nil => intro acc hacc _ t ht; exact hacc t ht
  | cons s rest ih =>
    intro acc hacc hl t ht
    rw [runSegs_cons] at ht
    exact ih (goodSeg_stepSeg hacc (hl s (List.mem_cons_self s rest)))
      (fun u hu => hl u (List.mem_cons_of_mem s hu)) t ht

theorem goodSeg_normSegs {r : Bool} {l : List Str} (hl : ∀ s ∈ l, GoodSeg s) :
    ∀ t ∈ normSegs r l, GoodSeg t := by
  intro t ht
  exact goodSeg_runSegs (fun u hu => absurd hu (List.not_mem_nil u)) hl t
    (List.mem_reverse.mp ht)

theorem runSegs_step_reverse (r : Bool) (acc u : List Str) (s : Str) :
    runSegs r acc ((stepSeg false u s).reverse) = runSegs r acc (u.reverse ++ [s]) := by
  by_cases hdd : s = dotdot
  · cases u with
    | nil => simp [stepSeg, hdd]
    | cons a as =>
      by_cases ha : a = dotdot
      · simp [stepSeg, hdd, ha]
      · have hstep : stepSeg false (a :: as) s = as := by
          simp [stepSeg, hdd, ha]
        rw [hstep]
        have hsplit : (a :: as).reverse ++ [s] = as.reverse ++ ([a] ++ [s]) := by simp
        rw [hsplit, runSegs_append]
        have h1 : stepSeg r (runSegs r acc as.reverse) a = a :: runSegs r acc as.reverse := by
          simp [stepSeg, ha]
        have h2 : stepSeg r (a :: runSegs r acc as.reverse) s = runSegs r acc as.reverse := by
          simp [stepSeg, hdd, ha]
        rw [show runSegs r (runSegs r acc as.reverse) ([a] ++ [s]) =
            stepSeg r (stepSeg r (runSegs r acc as.reverse) a) s from rfl, h1, h2]
  · have hstep : stepSeg false u s = s :: u := by simp [stepSeg, hdd]
    rw [hstep]
    simp [runSegs]

theorem runSegs_normSegs (r : Bool) (l : List Str) :
    ∀ acc, runSegs r acc (normSegs false l) = runSegs r acc l := by
  induction l using List.reverseRecOn with
  | nil => intro acc; rfl
  | append_singleton l s ih =>
    intro acc
    have h1 : normSegs false (l ++ [s]) = (stepSeg false (runSegs false [] l) s).reverse := by
      rw [normSegs, runSegs_append]
      rfl
    rw [h1, runSegs_step_reverse, runSegs_append, runSegs_append]
    rw [show (runSegs false [] l).reverse = normSegs false l from rfl, ih acc]

theorem normSegs_append_nf (r : Bool) (a b : List Str) :
    normSegs r (a ++ normSegs false b) = normSegs r (a ++ b) := by
  unfold normSegs
  rw [runSegs_append, runSegs_append]
  congr 1
  exact runSegs_normSegs r b (runSegs r [] a)

theorem rooted_append {x : Str} (z : Str) (hx : x ≠ []) : rooted (x ++ z) = rooted x := by
  cases x with
  | nil => exact absurd rfl hx
  | cons c cs => rfl

theorem joinSegs_head {s : Str} (rest : List Str) (hs : s ≠ []) :
    (joinSegs (s :: rest)).head? = s.head? := by
  cases rest with
  | nil => rfl
  | cons t ts =>
    cases s with
    | nil => exact absurd rfl hs
    | cons c cs => rfl

theorem rooted_joinSegs_false {l : List Str} (hl : ∀ s ∈ l, GoodSeg s) (hne : l ≠ []) :
    rooted (joinSegs l) = false := by
  cases l with
  | nil => exact absurd rfl hne
  | cons s rest =>
    have hs := hl s (List.mem_cons_self s rest)
    cases hj : joinSegs (s :: rest) with
    | nil => rfl
    | cons c cs =>
      have hhead : (joinSegs (s :: rest)).head? = s.head? := joinSegs_head rest hs.1
      rw [hj] at hhead
      cases s with
      | nil => exact absurd rfl hs.1
      | cons d ds =>
        have hcd : c = d := by simpa using hhead
        have hd : d ≠ '/' := fun h => hs.2.2 (h ▸ List.mem_cons_self d ds)
        simp [rooted, hcd, hd]

theorem joinSegs_ne_nil {l : List Str} (hl : ∀ s ∈ l, GoodSeg s) (hne : l ≠ []) :
    joinSegs l ≠ [] := by
  cases l with
  | nil => exact absurd rfl hne
  | cons s rest =>
    have hs := hl s (List.mem_cons_self s rest)
    cases rest with
    | nil => exact hs.1
    | cons t ts =>
      show s ++ '/' :: joinSegs (t :: ts) ≠ []
      simp

theorem segs_good (l : Str) : ∀ s ∈ segs l, GoodSeg s :=
  fun _ hs => goodSeg_of_mem_segs hs

theorem segs_joinSegs {l : List Str} (hl : ∀ s ∈ l, GoodSeg s) :
    segs (joinSegs l) = l := by
  induction l with
  | nil => exact segs_nil
  | cons s rest ih =>
    have hs := hl s (List.mem_cons_self s rest)
    cases rest with
    | nil => simpa using segs_single hs
    | cons t ts =>
      have hj : joinSegs (s :: t :: ts) = s ++ '/' :: joinSegs (t :: ts) := rfl
      rw [hj, segs_append, segs_single hs, ih (fun u hu => hl u (List.mem_cons_of_mem s hu))]
      rfl

theorem rooted_cleanL (l : Str) : rooted (cleanL l) = rooted l := by
  by_cases h0 : l = []
  · subst h0; rfl
  · unfold cleanL
    rw [if_neg h0]
    by_cases hns : normSegs (rooted l) (segs l) = []
    · rw [if_pos hns]
      cases hr : rooted l <;> simp [rooted]
    · rw [if_neg hns]
      cases hr : rooted l with
      | true => simp [rooted]
      | false =>
        rw [if_neg (by simp)]
        rw [hr] at hns
        exact rooted_joinSegs_false (goodSeg_normSegs (segs_good l)) hns

theorem isAbs_cleanL (l : Str) : isAbs (cleanL l) = isAbs l := by
  unfold isAbs
  exact rooted_cleanL l

theorem cleanL_ne_nil (l : Str) : cleanL l ≠ [] := by
  by_cases h0 : l = []
  · simp [h0, cleanL]
  · unfold cleanL
    rw [if_neg h0]
    by_cases hns : normSegs (rooted l) (segs l) = []
    · rw [if_pos hns]
      cases rooted l <;> simp
    · rw [if_neg hns]
      cases hr : rooted l with
      | true => simp
      | false =>
        rw [if_neg (by simp)]
        rw [hr] at hns
        exact joinSegs_ne_nil (goodSeg_normSegs (segs_good l)) hns

theorem segs_cleanL {y : Str} (hy : rooted y = false) :
    segs (cleanL y) = normSegs false (segs y) := by
  by_cases h0 : y = []
  · subst h0
    rw [show cleanL [] = ['.'] from rfl, segs_nil]
    decide
  · unfold cleanL
    rw [if_neg h0, hy]
    by_cases hns : normSegs false (segs y) = []
    · rw [if_pos hns, if_neg (by simp), hns]
      decide
    · rw [if_neg hns, if_neg (by simp)]
      exact segs_joinSegs (goodSeg_normSegs (segs_good y))

theorem cleanL_congr2 {x y : Str} {r : Bool} (hx : x ≠ []) (hy : y ≠ [])
    (hrx : rooted x = r) (hry : rooted y = r)
    (hn : normSegs r (segs x) = normSegs r (segs y)) : cleanL x = cleanL y := by
  unfold cleanL
  rw [if_neg hx, if_neg hy, hrx, hry, hn]

theorem join2_cleanL_right {x y : Str} (hx : x ≠ []) (hy : rooted y = false) :
    join2 x (cleanL y) = join2 x y := by
  unfold join2
  rw [if_neg hx, if_neg (cleanL_ne_nil y), if_neg hx]
  by_cases hy0 : y = []
  · subst hy0
    rw [if_pos rfl]
    refine cleanL_congr2 ?_ hx (rooted_append _ hx) rfl ?_
    · simp
    · rw [segs_append, show segs (cleanL []) = [] from by decide, List.append_nil]
  · rw [if_neg hy0]
    refine cleanL_congr2 ?_ ?_ (rooted_append _ hx) (rooted_append _ hx) ?_
    · simp
    · simp
    · rw [segs_append, segs_append, segs_cleanL hy, normSegs_append_nf]

theorem hasPrefix_iff_exists (s pre : Str) : hasPrefix s pre = true ↔ ∃ t, s = pre ++ t := by
  unfold hasPrefix
  rw [List.isPrefixOf_iff_prefix]
  constructor
  · rintro ⟨t, ht⟩
    exact ⟨t, ht.symm⟩
  · rintro ⟨t, ht⟩
    exact ⟨t, ht.symm⟩

theorem withinBase_iff_hasPrefix (p b : Str) :
    withinBase p b ↔ hasPrefix p (b ++ ['/']) = true := by
  rw [hasPrefix_iff_exists]
  constructor
  · rintro ⟨rest, h⟩
    exact ⟨rest, by simpa using h⟩
  · rintro ⟨rest, h⟩
    exact ⟨rest, by simpa using h⟩

theorem trimPrefix_of_withinBase {p b : Str} (h : withinBase p b) :
    trimPrefix p b = p.drop b.length := by
  obtain ⟨rest, hr⟩ := h
  unfold trimPrefix
  rw [if_pos ?_]
  unfold hasPrefix
  rw [List.isPrefixOf_iff_prefix]
  exact ⟨'/' :: rest, hr.symm⟩

/-- C1: the claim states that baseFS.path either returns a real path having
the base directory as a strict, segment-aligned prefix or returns a
confinement-violation error, and in particular that with base directory
/base no input may resolve to /basefoo.  The code violates this: for the
input "../basefoo" the translation returns the real path /basefoo with a nil
error, a sibling of the base directory that shares only its string prefix,
because the confinement check is a plain strings.HasPrefix test. -/
theorem c1_path_escape :
    BaseFS.path b0 ("../basefoo").data = (("/basefoo").data, none) ∧
    ¬ withinBase ("/basefoo").data ("/base").data ∧
    ("/basefoo").data ≠ ("/base").data := by
  refine ⟨by decide, ?_, by decide⟩
  rw [withinBase_iff_hasPrefix]
  decide

/-- C2: the claim states that fixerr removes every occurrence of the base
directory prefix from a *os.PathError's Path field and from a generic
error's message.  The code violates this: strings.Replace is called with
count 0, which replaces nothing, so both the Path field and the message are
returned with the /base prefix still present (a count of -1 would have
removed it). -/
theorem c2_fixerr_keeps_path :
    fixerr ("/base").data (some (.pathErr ("open").data ("/base/f.txt").data
        ("permission denied").data)) =
      some (.pathErr ("open").data ("/base/f.txt").data ("permission denied").data) ∧
    fixerr ("/base").data (some (.simple ("open /base/f.txt: permission denied").data)) =
      some (.simple ("open /base/f.txt: permission denied").data) ∧
    hasPrefix ("/base/f.txt").data ("/base").data = true ∧
    stringsReplace ("/base/f.txt").data ("/base").data [] (-1) = ("/f.txt").data := by
  refine ⟨by decide, by decide, by decide, by decide⟩

/-- C4: the claim states the round-trip law: for every virtual path p that
path(p) translates successfully (p not the root special case), stripping the
base-directory prefix from the real path yields the cleaned form of p.  The
code violates this at p = "../basefoo" with base /base: translation succeeds
with real path /basefoo, whose prefix-stripped form is "foo" (slash-rooted:
"/foo"), while the cleaned form of p is "../basefoo" (as a virtual absolute
path: "/basefoo"). -/
theorem c4_roundtrip_fail :
    BaseFS.path b0 ("../basefoo").data = (("/basefoo").data, none) ∧
    trimPrefix ("/basefoo").data ("/base").data = ("foo").data ∧
    cleanL ("../basefoo").data = ("../basefoo").data ∧
    cleanL ('/' :: ("../basefoo").data) = ("/basefoo").data ∧
    ("foo").data ≠ cleanL ("../basefoo").data ∧
    ('/' :: ("foo").data) ≠ cleanL ('/' :: ("../basefoo").data) := by
  refine ⟨by decide, by decide, by decide, by decide, by decide, by decide⟩

/-- C9: the claim states that Unwrap and Prefix recognise confined wrappers
of either capability variant.  The code violates this (and the repository's
own ExampleUnwrap/ExamplePrefix tests, which pass the NewFS result, a
*SymlinkFileSystem, and expect the wrapped filesystem and the base
directory): the type assertion in utils.go matches only *FileSystem, so a
symlink-capable wrapper confined to /base is returned unchanged by Unwrap
and Prefix yields "", while the basic wrapper works as claimed. -/
theorem c9_unwrap_eval :
    Unwrap (.symlink f0) = .symlink f0 ∧
    Prefix (.symlink f0) = [] ∧
    f0.base.pfx = ("/base").data ∧
    Unwrap (.basic fb0) = .plain fb0.fs ∧
    Prefix (.basic fb0) = fb0.base.pfx :=
  ⟨rfl, rfl, rfl, rfl, rfl⟩

/-- C10: Chdir never fails, never consults the wrapped filesystem (its model
takes and returns only the baseFS state) and performs no confinement check:
it sets the working directory to the cleaned argument when the argument is
absolute and to the join of the working directory and the argument
otherwise, leaving the prefix unchanged; Getwd then returns exactly the
stored value with a nil error. -/
theorem c10_chdir (b : BaseFS) (dir : Str) (h : b.cwd ≠ []) :
    BaseFS.Chdir b dir =
      ({ cwd := if isAbs dir then cleanL dir else join2 b.cwd dir, pfx := b.pfx }, none) ∧
    BaseFS.Getwd (BaseFS.Chdir b dir).1 = ((BaseFS.Chdir b dir).1.cwd, none) := by
  refine ⟨?_, rfl⟩
  unfold BaseFS.Chdir
  by_cases ha : isAbs dir = true
  · rw [show isAbs (cleanL dir) = true from (isAbs_cleanL dir).trans ha, if_pos rfl, if_pos ha]
  · have ha' : isAbs dir = false := by
      cases hv : isAbs dir
      · rfl
      · exact absurd hv ha
    rw [show isAbs (cleanL dir) = false from (isAbs_cleanL dir).trans ha']
    rw [if_neg (by simp), if_neg (by simp [ha'])]
    have hr : rooted dir = false := ha'
    rw [join2_cleanL_right h hr]

/-- C10 witness: Chdir on the /base-confined state with working directory /
and the relative argument "a/b" stores /a/b, keeps the prefix and returns a
nil error. -/
theorem c10_chdir_witness :
    BaseFS.Chdir b0 ("a/b").data =
      ({ cwd := ("/a/b").data, pfx := ("/base").data }, none) :=
  ((c10_chdir b0 ("a/b").data (by decide)).1).trans (by decide)

/-- C7: for either facade variant, TempDir returns the wrapped filesystem's
temp directory converted to virtual form (prefix stripped) exactly when that
directory lies (strictly, segment-aligned) within the base directory, and
the fixed default "/tmp" otherwise. -/
theorem c7_tempdir (fb : FileSystem) (fs : SymlinkFileSystem) :
    (withinBase fb.fs.TempDir fb.base.pfx →
      FileSystem.TempDir fb = fb.fs.TempDir.drop fb.base.pfx.length) ∧
    (¬ withinBase fb.fs.TempDir fb.base.pfx → FileSystem.TempDir fb = ("/tmp").data) ∧
    (withinBase fs.fs.TempDir fs.base.pfx →
      SymlinkFileSystem.TempDir fs = fs.fs.TempDir.drop fs.base.pfx.length) ∧
    (¬ withinBase fs.fs.TempDir fs.base.pfx → SymlinkFileSystem.TempDir fs = ("/tmp").data) := by
  refine ⟨?_, ?_, ?_, ?_⟩
  · intro hw
    unfold FileSystem.TempDir
    rw [if_pos ((withinBase_iff_hasPrefix _ _).mp hw)]
    exact trimPrefix_of_withinBase hw
  · intro hw
    unfold FileSystem.TempDir
    rw [if_neg (fun hp => hw ((withinBase_iff_hasPrefix _ _).mpr hp))]
  · intro hw
    unfold SymlinkFileSystem.TempDir
    rw [if_pos ((withinBase_iff_hasPrefix _ _).mp hw)]
    exact trimPrefix_of_withinBase hw
  · intro hw
    unfold SymlinkFileSystem.TempDir
    rw [if_neg (fun hp => hw ((withinBase_iff_hasPrefix _ _).mpr hp))]

/-- C7 witness: over the concrete wrapped filesystem whose temp directory is
/base/tmp and the facades confined to /base, both TempDir implementations
return the virtual /tmp. -/
theorem c7_tempdir_witness :
    FileSystem.TempDir fb0 = ("/tmp").data ∧ SymlinkFileSystem.TempDir f0 = ("/tmp").data := by
  constructor
  · exact ((c7_tempdir fb0 f0).1 ⟨("tmp").data, by decide⟩).trans (by decide)
  · exact ((c7_tempdir fb0 f0).2.2.1 ⟨("tmp").data, by decide⟩).trans (by decide)

/-- C6: Symlink always translates the link path newname; the target oldname
is translated only when absolute, and a relative oldname is passed to the
wrapped filesystem unchanged. -/
theorem c6_symlink_translation (f : SymlinkFileSystem) (oldname newname pnew pold : Str)
    (h : f.base.path newname = (pnew, none)) :
    (isAbs oldname = false →
      f.Symlink oldname newname =
        (fixerr f.base.pfx (f.fs.Symlink oldname pnew), [Call.Symlink oldname pnew])) ∧
    (isAbs oldname = true → f.base.path oldname = (pold, none) →
      f.Symlink oldname newname =
        (fixerr f.base.pfx (f.fs.Symlink pold pnew), [Call.Symlink pold pnew])) := by
  constructor
  · intro ha
    simp [SymlinkFileSystem.Symlink, h, ha]
  · intro ha hold
    simp [SymlinkFileSystem.Symlink, h, ha, hold]

/-- C6 witness: creating the link /l to the relative target "t" passes the
target through untranslated while the link path is translated to /base/l;
creating the link /l2 to the absolute target /d translates both. -/
theorem c6_symlink_translation_witness :
    SymlinkFileSystem.Symlink f0 ("t").data ("/l").data =
      (none, [Call.Symlink ("t").data ("/base/l").data]) ∧
    SymlinkFileSystem.Symlink f0 ("/d").data ("/l2").data =
      (none, [Call.Symlink ("/base/d").data ("/base/l2").data]) := by
  constructor
  · exact ((c6_symlink_translation f0 ("t").data ("/l").data ("/base/l").data []
      (by decide)).1 (by decide)).trans (by decide)
  · exact ((c6_symlink_translation f0 ("/d").data ("/l2").data ("/base/l2").data
      ("/base/d").data (by decide)).2 (by decide) (by decide)).trans (by decide)

/-- C3 counterexample: the claim states that an absolute Readlink target
that does not fall within the base directory is returned unchanged.  Over
the wrapped filesystem in which /base/l is a symlink to /basefoo, the facade
confined to /base returns /foo for Readlink("/l"): the target /basefoo is
absolute and not within /base, yet it is not returned unchanged, because the
within test is a plain strings.HasPrefix check that /basefoo passes. -/
theorem c3_readlink_counterexample :
    SymlinkFileSystem.Readlink f0 ("/l").data =
      (("/foo").data, none, [Call.Readlink ("/base/l").data]) ∧
    isAbs ("/basefoo").data = true ∧
    ¬ withinBase ("/basefoo").data ("/base").data ∧
    ("/foo").data ≠ ("/basefoo").data := by
  refine ⟨by decide, by decide, ?_, by decide⟩
  rw [withinBase_iff_hasPrefix]
  decide

/-- C3 amended: for Readlink(name), when the wrapped filesystem returns a
relative target it is returned as-is; when it returns an absolute target
that has the base directory as a string prefix (not necessarily
segment-aligned) the target is rewritten to virtual form (prefix-trimmed,
slash-rooted, cleaned); an absolute target without that string prefix is
returned unchanged. -/
theorem c3_readlink_amended (f : SymlinkFileSystem) (name ppath target : Str)
    (h1 : f.base.path name = (ppath, none))
    (h2 : f.fs.Readlink ppath = (target, none)) :
    (isAbs target = false →
      f.Readlink name = (target, none, [Call.Readlink ppath])) ∧
    (isAbs target = true → hasPrefix target f.base.pfx = false →
      f.Readlink name = (target, none, [Call.Readlink ppath])) ∧
    (isAbs target = true → hasPrefix target f.base.pfx = true →
      f.Readlink name =
        (cleanL (if trimPrefix target f.base.pfx = [] ∨
              hasPrefix (trimPrefix target f.base.pfx) ['/'] = false
            then '/' :: trimPrefix target f.base.pfx
            else trimPrefix target f.base.pfx), none, [Call.Readlink ppath])) := by
  refine ⟨?_, ?_, ?_⟩
  · intro ha
    simp [SymlinkFileSystem.Readlink, h1, h2, ha]
  · intro ha hp
    simp [SymlinkFileSystem.Readlink, h1, h2, ha, hp]
  · intro ha hp
    simp [SymlinkFileSystem.Readlink, h1, h2, ha, hp]

/-- C3 amended witness: Readlink("/r") over the concrete wrapped filesystem
returns the relative target "t" unchanged, and Readlink("/l") rewrites the
absolute prefix-sharing target /basefoo to /foo. -/
theorem c3_readlink_amended_witness :
    SymlinkFileSystem.Readlink f0 ("/r").data =
      (("t").data, none, [Call.Readlink ("/base/r").data]) ∧
    SymlinkFileSystem.Readlink f0 ("/l").data =
      (("/foo").data, none, [Call.Readlink ("/base/l").data]) := by
  constructor
  · exact (c3_readlink_amended f0 ("/r").data ("/base/r").data ("t").data
      (by decide) (by decide)).1 (by decide)
  · exact ((c3_readlink_amended f0 ("/l").data ("/base/l").data ("/basefoo").data
      (by decide) (by decide)).2.2 (by decide) (by decide)).trans (by decide)

/-- C5: for every path-taking facade operation, an input whose path
translation is rejected makes the operation return the rejection error (for
Rename, wrapped in a *os.LinkError naming the original virtual names) and
the wrapped filesystem is never invoked (the call list is empty), so the
underlying state is unchanged.  Symlink rejects on its link path, and on an
absolute target. -/
theorem c5_reject_no_delegate (f : SymlinkFileSystem) (name oldname newname pold : Str)
    (e : GoErr) (flags atime mtime uid gid size : Int) (perm mode : Nat)
    (h : f.base.path name = ([], some e)) :
    f.OpenFile name flags perm = (.invalidFile, some e, []) ∧
    f.Mkdir name perm = (some e, []) ∧
    f.Remove name = (some e, []) ∧
    (f.base.path oldname = ([], some e) →
      f.Rename oldname newname = (some (.linkErr ("rename").data oldname newname e), [])) ∧
    (f.base.path oldname = (pold, none) → f.base.path newname = ([], some e) →
      f.Rename oldname newname = (some (.linkErr ("rename").data oldname newname e), [])) ∧
    f.Stat name = (none, some e, []) ∧
    f.Chmod name mode = (some e, []) ∧
    f.Chtimes name atime mtime = (some e, []) ∧
    f.Chown name uid gid = (some e, []) ∧
    f.Open name = (.nilFile, some e, []) ∧
    f.Create name = (.nilFile, some e, []) ∧
    f.MkdirAll name perm = (some e, []) ∧
    f.RemoveAll name = (some e, []) ∧
    f.Truncate name size = (some e, []) ∧
    f.Lstat name = (none, some e, []) ∧
    f.Lchown name uid gid = (some e, []) ∧
    f.Readlink name = ([], some e, []) ∧
    f.Symlink oldname name = (some e, []) ∧
    (isAbs name = true → f.base.path newname = (pold, none) →
      f.Symlink name newname = (some e, [])) ∧
    f.ReadDir name = ([], some e, []) ∧
    f.ReadFile name = ([], some e, []) := by
  refine ⟨?_, ?_, ?_, ?_, ?_, ?_, ?_, ?_, ?_, ?_, ?_, ?_, ?_, ?_, ?_, ?_, ?_, ?_, ?_, ?_, ?_⟩
  · simp [SymlinkFileSystem.OpenFile, h]
  · simp [SymlinkFileSystem.Mkdir, h]
  · simp [SymlinkFileSystem.Remove, h]
  · intro hold
    simp [SymlinkFileSystem.Rename, hold]
  · intro hold hnew
    simp [SymlinkFileSystem.Rename, hold, hnew]
  · simp [SymlinkFileSystem.Stat, h]
  · simp [SymlinkFileSystem.Chmod, h]
  · simp [SymlinkFileSystem.Chtimes, h]
  · simp [SymlinkFileSystem.Chown, h]
  · simp [SymlinkFileSystem.Open, h]
  · simp [SymlinkFileSystem.Create, h]
  · simp [SymlinkFileSystem.MkdirAll, h]
  · simp [SymlinkFileSystem.RemoveAll, h]
  · simp [SymlinkFileSystem.Truncate, h]
  · simp [SymlinkFileSystem.Lstat, h]
  · simp [SymlinkFileSystem.Lchown, h]
  · simp [SymlinkFileSystem.Readlink, h]
  · simp [SymlinkFileSystem.Symlink, h]
  · intro ha hnew
    simp [SymlinkFileSystem.Symlink, hnew, ha, h]
  · simp [SymlinkFileSystem.ReadDir, h]
  · simp [SymlinkFileSystem.ReadFile, h]

/-- C5 witness: the virtual name "/../x" is rejected by the translation (its
computed real path /x escapes /base); Open returns the rejection error with
no wrapped call made, and Rename wraps the same rejection in a link error. -/
theorem c5_reject_no_delegate_witness :
    SymlinkFileSystem.Open f0 ("/../x").data =
      (.nilFile, some (.pathErr ("open").data ("/x").data
        ("no such file or directory").data), []) ∧
    SymlinkFileSystem.Rename f0 ("/../x").data ("/y").data =
      (some (.linkErr ("rename").data ("/../x").data ("/y").data
        (.pathErr ("open").data ("/x").data ("no such file or directory").data)), []) := by
  constructor
  · exact (c5_reject_no_delegate f0 ("/../x").data ("/../x").data ("/y").data []
      (.pathErr ("open").data ("/x").data ("no such file or directory").data)
      0 0 0 0 0 0 0 0 (by decide)).2.2.2.2.2.2.2.2.2.1
  · exact (c5_reject_no_delegate f0 ("/../x").data ("/../x").data ("/y").data []
      (.pathErr ("open").data ("/x").data ("no such file or directory").data)
      0 0 0 0 0 0 0 0 (by decide)).2.2.2.1 (by decide)

/-- C8: construction by NewFS and NewFileSystem returns an error exactly
when the base directory argument is empty, not absolute, cannot be statted
in the wrapped filesystem, or is not a directory; otherwise it returns a
facade whose working directory is "/" and whose prefix is the given base
directory over the given wrapped filesystem. -/
theorem c8_construction (w : WrappedFS) (dir : Str) :
    ((NewFS w dir).2 ≠ none ↔
      (dir = [] ∨ isAbs dir = false ∨ (w.Stat dir).2 ≠ none ∨ (w.Stat dir).1.isDir = false)) ∧
    (¬ (dir = [] ∨ isAbs dir = false ∨ (w.Stat dir).2 ≠ none ∨ (w.Stat dir).1.isDir = false) →
      NewFS w dir = (some { base := { cwd := ['/'], pfx := dir }, fs := w }, none)) ∧
    ((NewFileSystem w dir).2 ≠ none ↔
      (dir = [] ∨ isAbs dir = false ∨ (w.Stat dir).2 ≠ none ∨ (w.Stat dir).1.isDir = false)) ∧
    (¬ (dir = [] ∨ isAbs dir = false ∨ (w.Stat dir).2 ≠ none ∨ (w.Stat dir).1.isDir = false) →
      NewFileSystem w dir = (some { base := { cwd := ['/'], pfx := dir }, fs := w }, none)) := by
  by_cases h0 : dir = []
  · subst h0
    refine ⟨?_, ?_, ?_, ?_⟩ <;> simp [NewFS, NewFileSystem]
  · by_cases ha : isAbs dir = false
    · refine ⟨?_, ?_, ?_, ?_⟩ <;> simp [NewFS, NewFileSystem, h0, ha]
    · have ha' : isAbs dir = true := by
        cases hv : isAbs dir
        · exact absurd hv ha
        · rfl
      rcases hstat : w.Stat dir with ⟨info, err⟩
      cases err with
      | some er =>
        refine ⟨?_, ?_, ?_, ?_⟩ <;>
          simp [NewFS, NewFileSystem, h0, ha', hstat]
      | none =>
        by_cases hd : info.isDir = false
        · refine ⟨?_, ?_, ?_, ?_⟩ <;>
            simp [NewFS, NewFileSystem, h0, ha', hstat, hd]
        · have hd' : info.isDir = true := by
            cases hv : info.isDir
            · exact absurd hv hd
            · rfl
          refine ⟨?_, ?_, ?_, ?_⟩ <;>
            simp [NewFS, NewFileSystem, h0, ha', hstat, hd']

/-- C8 witness: over the concrete wrapped filesystem, construction at the
absolute existing directory /base succeeds with working directory "/" and
prefix /base, for both constructors. -/
theorem c8_construction_witness :
    NewFS wfs0 ("/base").data =
      (some { base := { cwd := ['/'], pfx := ("/base").data }, fs := wfs0 }, none) ∧
    NewFileSystem wfs0 ("/base").data =
      (some { base := { cwd := ['/'], pfx := ("/base").data }, fs := wfs0 }, none) := by
  constructor
  · exact (c8_construction wfs0 ("/base").data).2.1 (by decide)
  · exact (c8_construction wfs0 ("/base").data).2.2.2 (by decide)
